import Mathlib

/-!
Verification of the expense-tracker FX conversion and aggregation pipeline.

Shallow embedding of:
  * `setFxRates`, `convertCurrency` (public/js/i18n.js),
  * `computeSummaryInUI`, `groupExpenseByCategoryInUI`, `seriesByDateInUI`
    (public/js/dashboard.js),
  * `summarize`, `matchesFilters` (the transactions page module).

JavaScript numbers are modelled as exact rationals; a non-finite value
(NaN or an infinity) is modelled as `none` of `Option ℚ`.  Host date
parsing is abstracted as an explicit parse parameter.
-/

namespace ExpenseTracker

/-- A JavaScript number: `none` models a non-finite value (NaN, ±Infinity,
or the JSON `null` such a value is persisted as); `some q` a finite value,
modelled as an exact rational. -/
abbrev JNum := Option ℚ

/-- A JS object used as an FX table: maps a currency-code key to `none`
(key absent) or `some v` (key present with value `v`, itself possibly
non-finite). -/
abbrev FxTable := String → Option JNum

/-- The table lookup `Number(r[src] ?? 1)` performed by `convertCurrency`
on the persisted table: an absent key, as well as a persisted non-finite
value (stored as JSON `null`, which `??` also replaces), yields rate 1. -/
def rateLookup (r : FxTable) (c : String) : ℚ :=
  match r c with
  | some (some v) => v
  | _ => 1

/-- The default FX table used when nothing is stored yet:
EUR 1, USD 1.08, RUB 95 (per 1 EUR). -/
def defaultRates : FxTable := fun c =>
  if c = "EUR" then some (some 1)
  else if c = "USD" then some (some (1.08 : ℚ))
  else if c = "RUB" then some (some 95)
  else none

/-- The object spread `\x7b ...current, ...rates \x7d`: a key supplied in
`rates` wins, any other key keeps its value from `current`. -/
def mergeTables (current rates : FxTable) : FxTable := fun k =>
  match rates k with
  | some v => some v
  | none => current k

/-- `Number(v)` applied to an object-lookup result: an absent key
(`undefined`) and a non-finite value both produce a non-finite number. -/
def jsNumberOf (v : Option JNum) : JNum :=
  match v with
  | some (some q) => some q
  | _ => none

/-- Shallow embedding of `setFxRates` (public/js/i18n.js): spread-merge the
supplied mapping over the current table, force `EUR` to 1, and sanitize
exactly the keys `USD` and `RUB` (a positive finite merged value is kept,
anything else falls back to the previous entry). -/
def setFxRates (current rates : FxTable) : FxTable := fun k =>
  let next := mergeTables current rates
  if k = "EUR" then some (some 1)
  else if k = "USD" ∨ k = "RUB" then
    match jsNumberOf (next k) with
    | some v => if 0 < v then some (some v) else current k
    | none => current k
  else next k

/-- `.toUpperCase()` on the ASCII currency codes this app uses:
map the character-wise upper-casing over the string. -/
def jsToUpper (s : String) : String := ⟨s.data.map Char.toUpper⟩

/-- `.toLowerCase()` on the ASCII identifiers this app compares:
map the character-wise lower-casing over the string. -/
def jsToLower (s : String) : String := ⟨s.data.map Char.toLower⟩

/-- `String(c || '').toUpperCase() || fallback`: the upper-cased code, or
the fallback when the code is empty. -/
def normCode (c fallback : String) : String :=
  if c = "" then fallback else jsToUpper c

/-- Shallow embedding of `convertCurrency` (public/js/i18n.js).
`uiCur` is the value `getCurrentCurrency()` would return (used only when
the target code is empty).  A non-finite amount returns 0; a same-code
conversion returns the amount unchanged; otherwise the amount is divided
by the source rate and multiplied by the target rate. -/
def convertCurrency (r : FxTable) (uiCur : String) (amount : JNum)
    (src0 dst0 : String) : JNum :=
  match amount with
  | none => some 0
  | some a =>
    let src := normCode src0 "EUR"
    let dst := normCode dst0 uiCur
    if src = dst then some a
    else some (a / rateLookup r src * rateLookup r dst)

/-- A canonical currency code: nonempty and fixed by upper-casing
(e.g. "EUR", "USD", "RUB"). -/
def IsCode (c : String) : Prop := c ≠ "" ∧ jsToUpper c = c

/-- Every value stored in the table is positive (the spec's
"rate table whose entries are all positive"). -/
def PosTable (r : FxTable) : Prop := ∀ c v, r c = some (some v) → 0 < v

theorem rateLookup_pos {r : FxTable} (h : PosTable r) (c : String) :
    0 < rateLookup r c := by
  unfold rateLookup
  cases hc : r c with
  | none => norm_num
  | some v =>
    cases v with
    | none => norm_num
    | some q => exact h c q hc

theorem defaultRates_pos : PosTable defaultRates := by
  intro c v h
  unfold defaultRates at h
  split_ifs at h <;> simp_all <;> norm_num [← h]

theorem convertCurrency_code_ne {r : FxTable} {cur : String} (a : ℚ)
    {x y : String} (hx : IsCode x) (hy : IsCode y) (hxy : x ≠ y) :
    convertCurrency r cur (some a) x y
      = some (a / rateLookup r x * rateLookup r y) := by
  obtain ⟨hx1, hx2⟩ := hx
  obtain ⟨hy1, hy2⟩ := hy
  simp only [convertCurrency, normCode, if_neg hx1, if_neg hy1, hx2, hy2,
    if_neg hxy]

/-- C1: for every finite amount and distinct currency codes `x ≠ y`,
`convertCurrency` computes `a / rate(x) * rate(y)`, where an absent code
has rate 1; with the default table, 100 EUR → RUB gives 9500 and
100 USD → RUB gives `100 * (95 / 1.08)`. -/
theorem claim_C1_convert_formula (r : FxTable) (cur : String) (a : ℚ)
    (x y : String) (hx : IsCode x) (hy : IsCode y) (hxy : x ≠ y) :
    convertCurrency r cur (some a) x y
      = some (a / rateLookup r x * rateLookup r y)
    ∧ convertCurrency defaultRates cur (some 100) "EUR" "RUB" = some 9500
    ∧ convertCurrency defaultRates cur (some 100) "USD" "RUB"
        = some (100 * (95 / (1.08 : ℚ))) := by
  have heur : rateLookup defaultRates "EUR" = 1 := rfl
  have husd : rateLookup defaultRates "USD" = (1.08 : ℚ) := rfl
  have hrub : rateLookup defaultRates "RUB" = 95 := rfl
  refine ⟨convertCurrency_code_ne a hx hy hxy, ?_, ?_⟩
  · rw [convertCurrency_code_ne 100 (x := "EUR") (y := "RUB")
      ⟨by decide, by decide⟩ ⟨by decide, by decide⟩ (by decide), heur, hrub]
    norm_num
  · rw [convertCurrency_code_ne 100 (x := "USD") (y := "RUB")
      ⟨by decide, by decide⟩ ⟨by decide, by decide⟩ (by decide), husd, hrub]
    norm_num

/-- Concrete instance of C1 at `a = 100`, `x = "USD"`, `y = "RUB"`. -/
theorem claim_C1_convert_formula_witness :
    convertCurrency defaultRates "EUR" (some 100) "USD" "RUB"
      = some (100 / rateLookup defaultRates "USD"
              * rateLookup defaultRates "RUB") :=
  (claim_C1_convert_formula defaultRates "EUR" 100 "USD" "RUB"
    ⟨by decide, by decide⟩ ⟨by decide, by decide⟩ (by decide)).1

/-- C3: after any `setFxRates` call the base currency EUR maps to
exactly 1, whatever was supplied for it. -/
theorem claim_C3_base_fixed (current rates : FxTable) :
    setFxRates current rates "EUR" = some (some 1) := rfl

/-- A supplied mapping containing only GBP := -5. -/
def gbpNegRates : FxTable := fun k =>
  if k = "GBP" then some (some (-5)) else none

/-- A supplied mapping containing only USD := -3. -/
def usdNegRates : FxTable := fun k =>
  if k = "USD" then some (some (-3)) else none

/-- C2 is refuted as stated: "GBP" is a non-base currency and the supplied
value -5 is non-positive, yet `setFxRates` stores -5 instead of keeping
the previous entry (which was absent): only USD and RUB are sanitized. -/
theorem claim_C2_counterexample :
    gbpNegRates "GBP" = some (some (-5)) ∧ ¬ (0 : ℚ) < -5
    ∧ setFxRates defaultRates gbpNegRates "GBP" = some (some (-5))
    ∧ defaultRates "GBP" = none :=
  ⟨rfl, by norm_num, rfl, rfl⟩

/-- C2 (amended): for the supported non-base keys USD and RUB a supplied
finite value is taken iff it is positive (kept previous entry otherwise,
also for a supplied non-finite value); a key other than EUR/USD/RUB is
merged verbatim with no validation; a key absent from the supplied
mapping keeps its previous entry.  `setFxRates` is total: no error. -/
theorem claim_C2_setRates_merge (current rates : FxTable) (k : String)
    (hk : k ≠ "EUR") :
    ((k = "USD" ∨ k = "RUB") →
       (∀ v : ℚ, rates k = some (some v) →
          setFxRates current rates k
            = if 0 < v then some (some v) else current k)
       ∧ (rates k = some none → setFxRates current rates k = current k))
    ∧ (k ≠ "USD" → k ≠ "RUB" →
       ∀ w, rates k = some w → setFxRates current rates k = some w)
    ∧ (rates k = none → setFxRates current rates k = current k) := by
  refine ⟨fun hUR => ⟨fun v hv => ?_, fun hv => ?_⟩, fun h1 h2 w hw => ?_, fun hn => ?_⟩
  · simp [setFxRates, mergeTables, jsNumberOf, hk, hUR, hv]
  · simp [setFxRates, mergeTables, jsNumberOf, hk, hUR, hv]
  · have hUR : ¬(k = "USD" ∨ k = "RUB") := by
      rintro (h | h) <;> [exact h1 h; exact h2 h]
    simp [setFxRates, mergeTables, hk, hUR, hw]
  · by_cases hUR : k = "USD" ∨ k = "RUB"
    · cases hcur : current k with
      | none => simp [setFxRates, mergeTables, jsNumberOf, hk, hUR, hn, hcur]
      | some w =>
        cases w with
        | none => simp [setFxRates, mergeTables, jsNumberOf, hk, hUR, hn, hcur]
        | some v =>
          by_cases hv : 0 < v <;>
            simp [setFxRates, mergeTables, jsNumberOf, hk, hUR, hn, hcur, hv]
    · simp [setFxRates, mergeTables, hk, hUR, hn]

/-- Concrete instance of amended C2: a supplied USD := -3 is rejected and
the default USD entry is kept. -/
theorem claim_C2_setRates_merge_witness :
    setFxRates defaultRates usdNegRates "USD" = defaultRates "USD" := by
  have h := ((claim_C2_setRates_merge defaultRates usdNegRates "USD"
    (by decide)).1 (Or.inl rfl)).1 (-3) rfl
  rw [h, if_neg (by norm_num)]

/-- C5 is refuted as stated: a non-finite amount (NaN) is not returned
unchanged by a same-currency conversion — the code returns 0 instead. -/
theorem claim_C5_counterexample :
    convertCurrency defaultRates "EUR" none "USD" "USD" = some 0
    ∧ some 0 ≠ (none : JNum) :=
  ⟨rfl, by decide⟩

/-- C5 (amended): for every finite amount `a` and every nonempty currency
code `c`, `convertCurrency a c c = a`; a non-finite amount yields 0. -/
theorem claim_C5_identity_finite (r : FxTable) (cur : String) (a : ℚ)
    (c : String) (hc : c ≠ "") :
    convertCurrency r cur (some a) c c = some a := by
  simp [convertCurrency, normCode, hc]

/-- Concrete instance of amended C5 at `a = 7`, `c = "usd"`. -/
theorem claim_C5_identity_finite_witness :
    convertCurrency defaultRates "EUR" (some 7) "usd" "usd" = some 7 :=
  claim_C5_identity_finite defaultRates "EUR" 7 "usd" (by decide)

/-- C6: with a rate table whose entries are all positive, converting a
positive amount from `x` to `y` and back yields the amount exactly (in
exact rational arithmetic). -/
theorem claim_C6_round_trip (r : FxTable) (cur : String) (a : ℚ)
    (x y : String) (hx : IsCode x) (hy : IsCode y) (ha : 0 < a)
    (hr : PosTable r) :
    convertCurrency r cur (convertCurrency r cur (some a) x y) y x
      = some a := by
  by_cases hxy : x = y
  · subst hxy
    simp [convertCurrency, normCode, hx.1]
  · have hx0 : rateLookup r x ≠ 0 := ne_of_gt (rateLookup_pos hr x)
    have hy0 : rateLookup r y ≠ 0 := ne_of_gt (rateLookup_pos hr y)
    rw [convertCurrency_code_ne a hx hy hxy,
        convertCurrency_code_ne _ hy hx (Ne.symm hxy)]
    congr 1
    field_simp
    ring

/-- Concrete instance of C6: 100 USD → RUB → USD is exactly 100. -/
theorem claim_C6_round_trip_witness :
    convertCurrency defaultRates "EUR"
        (convertCurrency defaultRates "EUR" (some 100) "USD" "RUB")
        "RUB" "USD"
      = some 100 :=
  claim_C6_round_trip defaultRates "EUR" 100 "USD" "RUB"
    ⟨by decide, by decide⟩ ⟨by decide, by decide⟩ (by norm_num)
    defaultRates_pos

/-- A transaction record as the aggregation code reads it.  `amount` is
the result of `Number(tx.amount)` (`none` = non-numeric/non-finite); the
string fields use `""` for a missing value, matching the `|| ''` and
`|| fallback` coercions in the source. -/
structure Transaction where
  amount : JNum
  currency : String
  type : String
  category : String
  date : String
  description : String
  note : String
deriving DecidableEq

/-- `Number(x) || 0`: a non-finite amount is coerced to 0. -/
def numOr0 (a : JNum) : ℚ := a.getD 0

/-- The converted absolute value of one transaction in the UI currency:
`convert(Math.abs(Number(tx.amount) || 0), tx.currency || ui, ui)`,
shared by `computeSummaryInUI`, `summarize`, the grouping and the series. -/
def txValAbs (r : FxTable) (uiCur : String) (tx : Transaction) : ℚ :=
  let raw := numOr0 tx.amount
  let src := if tx.currency = "" then uiCur else tx.currency
  numOr0 (convertCurrency r uiCur (some |raw|) src uiCur)

/-- The dashboard summary record (the echoed `currency` field is the
`uiCur` argument and is omitted). -/
structure Summary where
  income : ℚ
  expense : ℚ
  balance : ℚ
deriving DecidableEq

/-- One step of the `forEach` accumulation in `computeSummaryInUI` /
`summarize`: add the converted absolute value to the income bucket when
`tx.type === 'income'`, to the expense bucket for every other type. -/
def sumStep (r : FxTable) (uiCur : String) (acc : ℚ × ℚ)
    (tx : Transaction) : ℚ × ℚ :=
  let v := txValAbs r uiCur tx
  if tx.type = "income" then (acc.1 + v, acc.2) else (acc.1, acc.2 + v)

/-- Shallow embedding of `computeSummaryInUI` (public/js/dashboard.js). -/
def computeSummaryInUI (r : FxTable) (uiCur : String)
    (txs : List Transaction) : Summary :=
  let p := txs.foldl (sumStep r uiCur) (0, 0)
  ⟨p.1, p.2, p.1 - p.2⟩

/-- Shallow embedding of `summarize` (transactions page): the same
accumulation as `computeSummaryInUI` (the JS bodies differ only in where
`Math.abs` is written). -/
def summarize (r : FxTable) (uiCur : String)
    (txs : List Transaction) : Summary :=
  let p := txs.foldl (sumStep r uiCur) (0, 0)
  ⟨p.1, p.2, p.1 - p.2⟩

theorem convert_abs_nonneg {r : FxTable} (hr : PosTable r) (uiCur : String)
    (a : ℚ) (s d : String) :
    0 ≤ numOr0 (convertCurrency r uiCur (some |a|) s d) := by
  unfold convertCurrency numOr0
  simp only
  split
  · simp only [Option.getD_some]
    exact abs_nonneg _
  · simp only [Option.getD_some]
    have h1 := rateLookup_pos hr (normCode s "EUR")
    have h2 := rateLookup_pos hr (normCode d uiCur)
    positivity

theorem txValAbs_nonneg {r : FxTable} (hr : PosTable r) (uiCur : String)
    (tx : Transaction) : 0 ≤ txValAbs r uiCur tx :=
  convert_abs_nonneg hr uiCur (numOr0 tx.amount)
    (if tx.currency = "" then uiCur else tx.currency) uiCur

/-- The income column of the accumulation, written as a plain sum. -/
def incomeSum (r : FxTable) (uiCur : String) : List Transaction → ℚ
  | [] => 0
  | tx :: txs =>
    (if tx.type = "income" then txValAbs r uiCur tx else 0)
      + incomeSum r uiCur txs

/-- The expense column of the accumulation, written as a plain sum. -/
def expenseSum (r : FxTable) (uiCur : String) : List Transaction → ℚ
  | [] => 0
  | tx :: txs =>
    (if tx.type = "income" then 0 else txValAbs r uiCur tx)
      + expenseSum r uiCur txs

theorem foldl_sumStep_eq (r : FxTable) (uiCur : String) :
    ∀ (txs : List Transaction) (a b : ℚ),
      txs.foldl (sumStep r uiCur) (a, b)
        = (a + incomeSum r uiCur txs, b + expenseSum r uiCur txs)
  | [], a, b => by simp [incomeSum, expenseSum]
  | tx :: txs, a, b => by
    by_cases h : tx.type = "income"
    · rw [List.foldl_cons,
        show sumStep r uiCur (a, b) tx = (a + txValAbs r uiCur tx, b) by
          simp [sumStep, h],
        foldl_sumStep_eq r uiCur txs (a + txValAbs r uiCur tx) b]
      simp only [incomeSum, expenseSum, h, if_pos, Prod.mk.injEq]
      constructor <;> ring
    · rw [List.foldl_cons,
        show sumStep r uiCur (a, b) tx = (a, b + txValAbs r uiCur tx) by
          simp [sumStep, h],
        foldl_sumStep_eq r uiCur txs a (b + txValAbs r uiCur tx)]
      simp only [incomeSum, expenseSum, h, if_neg, Prod.mk.injEq, if_false]
      constructor <;> ring

theorem computeSummaryInUI_eq (r : FxTable) (uiCur : String)
    (txs : List Transaction) :
    computeSummaryInUI r uiCur txs
      = ⟨incomeSum r uiCur txs, expenseSum r uiCur txs,
         incomeSum r uiCur txs - expenseSum r uiCur txs⟩ := by
  unfold computeSummaryInUI
  rw [foldl_sumStep_eq r uiCur txs 0 0]
  simp

theorem summarize_eq (r : FxTable) (uiCur : String)
    (txs : List Transaction) :
    summarize r uiCur txs = computeSummaryInUI r uiCur txs := rfl

theorem incomeSum_nonneg {r : FxTable} (hr : PosTable r) (uiCur : String) :
    ∀ txs : List Transaction, 0 ≤ incomeSum r uiCur txs
  | [] => le_refl 0
  | tx :: txs => by
    have ih := incomeSum_nonneg hr uiCur txs
    have hv := txValAbs_nonneg hr uiCur tx
    unfold incomeSum
    split <;> linarith

theorem expenseSum_nonneg {r : FxTable} (hr : PosTable r) (uiCur : String) :
    ∀ txs : List Transaction, 0 ≤ expenseSum r uiCur txs
  | [] => le_refl 0
  | tx :: txs => by
    have ih := expenseSum_nonneg hr uiCur txs
    have hv := txValAbs_nonneg hr uiCur tx
    unfold expenseSum
    split <;> linarith

/-- C4: with a rate table whose entries are all positive, both summary
implementations give `balance = income - expense` exactly, and
nonnegative income and expense. -/
theorem claim_C4_totals_consistency (r : FxTable) (uiCur : String)
    (txs : List Transaction) (hr : PosTable r) :
    (computeSummaryInUI r uiCur txs).balance
        = (computeSummaryInUI r uiCur txs).income
          - (computeSummaryInUI r uiCur txs).expense
    ∧ 0 ≤ (computeSummaryInUI r uiCur txs).income
    ∧ 0 ≤ (computeSummaryInUI r uiCur txs).expense
    ∧ (summarize r uiCur txs).balance
        = (summarize r uiCur txs).income - (summarize r uiCur txs).expense
    ∧ 0 ≤ (summarize r uiCur txs).income
    ∧ 0 ≤ (summarize r uiCur txs).expense := by
  rw [summarize_eq, computeSummaryInUI_eq]
  exact ⟨rfl, incomeSum_nonneg hr uiCur txs, expenseSum_nonneg hr uiCur txs,
    rfl, incomeSum_nonneg hr uiCur txs, expenseSum_nonneg hr uiCur txs⟩

/-- The two transactions of the spec's concrete scenario. -/
def foodTx : Transaction :=
  ⟨some 100, "EUR", "expense", "Food", "2024-01-05", "", ""⟩

/-- Second transaction of the spec's concrete scenario. -/
def salaryTx : Transaction :=
  ⟨some 50, "USD", "income", "Salary", "2024-01-06", "", ""⟩

/-- Concrete instance of C4 on the spec's two-transaction scenario. -/
theorem claim_C4_totals_consistency_witness :
    (computeSummaryInUI defaultRates "EUR" [foodTx, salaryTx]).balance
        = (computeSummaryInUI defaultRates "EUR" [foodTx, salaryTx]).income
          - (computeSummaryInUI defaultRates "EUR" [foodTx, salaryTx]).expense
    ∧ 0 ≤ (computeSummaryInUI defaultRates "EUR" [foodTx, salaryTx]).income :=
  ⟨(claim_C4_totals_consistency defaultRates "EUR" [foodTx, salaryTx]
      defaultRates_pos).1,
   (claim_C4_totals_consistency defaultRates "EUR" [foodTx, salaryTx]
      defaultRates_pos).2.1⟩

/-- C10: a transaction whose type is anything but the exact string
"income" is added to the expense total (there is no third bucket), and
every transaction contributes its converted absolute amount to
income + expense (none is excluded by its type). -/
theorem claim_C10_else_is_expense (r : FxTable) (uiCur : String)
    (tx : Transaction) (txs : List Transaction) (h : tx.type ≠ "income") :
    (computeSummaryInUI r uiCur (tx :: txs)).expense
        = txValAbs r uiCur tx + (computeSummaryInUI r uiCur txs).expense
    ∧ (computeSummaryInUI r uiCur (tx :: txs)).income
        = (computeSummaryInUI r uiCur txs).income
    ∧ (∀ t : Transaction,
        (computeSummaryInUI r uiCur (t :: txs)).income
            + (computeSummaryInUI r uiCur (t :: txs)).expense
          = txValAbs r uiCur t
            + ((computeSummaryInUI r uiCur txs).income
               + (computeSummaryInUI r uiCur txs).expense))
    ∧ (summarize r uiCur (tx :: txs)).expense
        = txValAbs r uiCur tx + (summarize r uiCur txs).expense := by
  simp only [summarize_eq, computeSummaryInUI_eq]
  refine ⟨?_, ?_, ?_, ?_⟩
  · simp [expenseSum, h]
  · simp [incomeSum, h]
  · intro t
    by_cases ht : t.type = "income" <;>
      simp [incomeSum, expenseSum, ht] <;> ring
  · simp [expenseSum, h]

/-- A transaction with an unknown type string. -/
def transferTx : Transaction :=
  ⟨some 10, "EUR", "transfer", "", "2024-01-07", "", ""⟩

/-- Concrete instance of C10: an unknown type "transfer" lands in the
expense bucket. -/
theorem claim_C10_else_is_expense_witness :
    (computeSummaryInUI defaultRates "EUR" [transferTx]).expense
      = txValAbs defaultRates "EUR" transferTx
        + (computeSummaryInUI defaultRates "EUR" []).expense :=
  (claim_C10_else_is_expense defaultRates "EUR" transferTx []
    (by decide)).1

/-- `map.set(key, (map.get(key) || 0) + val)` on a JS `Map`, modelled as
an insertion-ordered association list: an existing key is updated in
place, a new key is appended at the end. -/
def mapBump (m : List (String × ℚ)) (k : String) (v : ℚ) :
    List (String × ℚ) :=
  match m with
  | [] => [(k, v)]
  | (k', v') :: rest =>
    if k' = k then (k', v' + v) :: rest else (k', v') :: mapBump rest k v

/-- The key a transaction is grouped under: `t.category || 'Other'`. -/
def catKey (t : Transaction) : String :=
  if t.category = "" then "Other" else t.category

/-- One step of the `forEach` in `groupExpenseByCategoryInUI`. -/
def groupStep (r : FxTable) (uiCur : String) (m : List (String × ℚ))
    (t : Transaction) : List (String × ℚ) :=
  mapBump m (catKey t) (txValAbs r uiCur t)

/-- Shallow embedding of `groupExpenseByCategoryInUI`
(public/js/dashboard.js): keep only the `type === 'expense'` rows and
accumulate converted absolute amounts per category key. -/
def groupExpenseByCategoryInUI (r : FxTable) (uiCur : String)
    (txs : List Transaction) : List (String × ℚ) :=
  (txs.filter (fun t => decide (t.type = "expense"))).foldl
    (groupStep r uiCur) []

/-- Sum of the amounts of the grouped (category, amount) pairs. -/
def sumPairs (m : List (String × ℚ)) : ℚ := (m.map Prod.snd).sum

/-- The grouped total stored under key `k` (0 when `k` is absent). -/
def catTotal (m : List (String × ℚ)) (k : String) : ℚ :=
  match m.find? (fun p => decide (p.1 = k)) with
  | some p => p.2
  | none => 0

theorem sumPairs_mapBump (k : String) (v : ℚ) :
    ∀ m : List (String × ℚ), sumPairs (mapBump m k v) = sumPairs m + v
  | [] => by simp [sumPairs, mapBump]
  | (k', v') :: rest => by
    by_cases hk : k' = k
    · simp [sumPairs, mapBump, hk]
      ring
    · simp only [mapBump, if_neg hk, sumPairs, List.map_cons, List.sum_cons]
      have := sumPairs_mapBump k v rest
      simp only [sumPairs] at this
      rw [this]
      ring

theorem catTotal_cons (x : String × ℚ) (m : List (String × ℚ))
    (k : String) :
    catTotal (x :: m) k = if x.1 = k then x.2 else catTotal m k := by
  unfold catTotal
  rw [List.find?_cons]
  by_cases h : x.1 = k <;> simp [h]

theorem catTotal_mapBump (k' : String) (v : ℚ) (k : String) :
    ∀ m : List (String × ℚ),
      catTotal (mapBump m k' v) k
        = catTotal m k + (if k' = k then v else 0)
  | [] => by
    rw [show mapBump [] k' v = [(k', v)] from rfl, catTotal_cons]
    by_cases hk : k' = k <;> simp [catTotal, hk]
  | (k₀, v₀) :: rest => by
    by_cases h0 : k₀ = k'
    · subst h0
      rw [show mapBump ((k₀, v₀) :: rest) k₀ v = (k₀, v₀ + v) :: rest from by
            simp [mapBump],
          catTotal_cons, catTotal_cons]
      by_cases hk : k₀ = k <;> simp [hk]
    · rw [show mapBump ((k₀, v₀) :: rest) k' v
            = (k₀, v₀) :: mapBump rest k' v from by simp [mapBump, h0],
          catTotal_cons, catTotal_cons]
      by_cases hk : k₀ = k
      · have hne : k' ≠ k := fun h => h0 (hk.trans h.symm)
        simp [hk, hne]
      · simp only [if_neg hk]
        exact catTotal_mapBump k' v k rest

theorem sumPairs_groupFold (r : FxTable) (uiCur : String) :
    ∀ (l : List Transaction) (m : List (String × ℚ)),
      sumPairs (l.foldl (groupStep r uiCur) m)
        = sumPairs m + (l.map (txValAbs r uiCur)).sum
  | [], m => by simp
  | t :: l, m => by
    rw [List.foldl_cons, sumPairs_groupFold r uiCur l (groupStep r uiCur m t)]
    unfold groupStep
    rw [sumPairs_mapBump]
    simp
    ring

theorem catTotal_groupFold (r : FxTable) (uiCur : String) (k : String) :
    ∀ (l : List Transaction) (m : List (String × ℚ)),
      catTotal (l.foldl (groupStep r uiCur) m) k
        = catTotal m k
          + (l.map (fun t =>
              if catKey t = k then txValAbs r uiCur t else 0)).sum
  | [], m => by simp
  | t :: l, m => by
    rw [List.foldl_cons, catTotal_groupFold r uiCur k l (groupStep r uiCur m t)]
    unfold groupStep
    rw [catTotal_mapBump]
    simp
    ring

theorem expenseSum_of_all_expense (r : FxTable) (uiCur : String) :
    ∀ txs : List Transaction, (∀ tx ∈ txs, tx.type = "expense") →
      expenseSum r uiCur txs = (txs.map (txValAbs r uiCur)).sum
  | [], _ => by simp [expenseSum]
  | tx :: txs, hall => by
    have h1 : tx.type = "expense" := hall tx (List.mem_cons_self tx txs)
    have h2 : tx.type ≠ "income" := by simp [h1]
    rw [List.map_cons, List.sum_cons]
    unfold expenseSum
    rw [if_neg h2,
      expenseSum_of_all_expense r uiCur txs
        (fun t ht => hall t (List.mem_cons_of_mem tx ht))]

/-- C7: on an expense-only list, the by-category amounts sum exactly to
the summary's expense total, and a transaction with an empty category
field is accumulated under the "Other" fallback bucket. -/
theorem claim_C7_grouping_total (r : FxTable) (uiCur : String)
    (txs : List Transaction) (hall : ∀ tx ∈ txs, tx.type = "expense") :
    sumPairs (groupExpenseByCategoryInUI r uiCur txs)
      = (computeSummaryInUI r uiCur txs).expense
    ∧ ∀ tx : Transaction, tx.category = "" → tx.type = "expense" →
        catTotal (groupExpenseByCategoryInUI r uiCur (tx :: txs)) "Other"
          = txValAbs r uiCur tx
            + catTotal (groupExpenseByCategoryInUI r uiCur txs) "Other" := by
  have hfil : txs.filter (fun t => decide (t.type = "expense")) = txs :=
    List.filter_eq_self.mpr (fun t ht => by simp [hall t ht])
  constructor
  · rw [computeSummaryInUI_eq]
    unfold groupExpenseByCategoryInUI
    rw [hfil, sumPairs_groupFold r uiCur txs []]
    simp only [sumPairs, List.map_nil, List.sum_nil, zero_add]
    exact (expenseSum_of_all_expense r uiCur txs hall).symm
  · intro tx hcat htype
    unfold groupExpenseByCategoryInUI
    rw [show (tx :: txs).filter (fun t => decide (t.type = "expense"))
          = tx :: txs.filter (fun t => decide (t.type = "expense")) by
        simp [List.filter_cons, htype],
      List.foldl_cons, catTotal_groupFold r uiCur "Other",
      catTotal_groupFold r uiCur "Other"]
    have hstep : groupStep r uiCur [] tx = [("Other", txValAbs r uiCur tx)] := by
      simp [groupStep, mapBump, catKey, hcat]
    rw [hstep]
    simp [catTotal, List.find?]

/-- An expense transaction with an empty category field. -/
def noCatTx : Transaction :=
  ⟨some 5, "EUR", "expense", "", "2024-01-08", "", ""⟩

/-- Concrete instance of C7 on the one-expense list `[foodTx]`, plus the
fallback bucket at `noCatTx`. -/
theorem claim_C7_grouping_total_witness :
    sumPairs (groupExpenseByCategoryInUI defaultRates "EUR" [foodTx])
      = (computeSummaryInUI defaultRates "EUR" [foodTx]).expense
    ∧ catTotal (groupExpenseByCategoryInUI defaultRates "EUR"
          (noCatTx :: [foodTx])) "Other"
        = txValAbs defaultRates "EUR" noCatTx
          + catTotal (groupExpenseByCategoryInUI defaultRates "EUR"
              [foodTx]) "Other" :=
  ⟨(claim_C7_grouping_total defaultRates "EUR" [foodTx] (by decide)).1,
   (claim_C7_grouping_total defaultRates "EUR" [foodTx] (by decide)).2
     noCatTx rfl rfl⟩

/-- `by[key].income += v` / `by[key].expense += v` with the
`if (!by[key]) by[key] = ...` zero-initialization, on an
insertion-ordered association list keyed by calendar day. -/
def bumpDay (m : List (ℕ × ℚ × ℚ)) (k : ℕ) (isInc : Bool) (v : ℚ) :
    List (ℕ × ℚ × ℚ) :=
  match m with
  | [] => [(k, if isInc then (v, 0) else (0, v))]
  | (k', p) :: rest =>
    if k' = k then
      (k', if isInc then (p.1 + v, p.2) else (p.1, p.2 + v)) :: rest
    else (k', p) :: bumpDay rest k isInc v

/-- One step of the `forEach` in `seriesByDateInUI`: a transaction whose
date fails to parse is skipped, the others bump their day bucket.
`dayOf` abstracts `new Date(t.date)` + `toISOString().slice(0,10)`:
`none` models an invalid date, and the natural-number key carries the
lexicographic-equals-chronological order of the ISO day strings. -/
def dayStep (dayOf : String → Option ℕ) (r : FxTable) (uiCur : String)
    (m : List (ℕ × ℚ × ℚ)) (t : Transaction) : List (ℕ × ℚ × ℚ) :=
  match dayOf t.date with
  | none => m
  | some k => bumpDay m k (decide (t.type = "income")) (txValAbs r uiCur t)

/-- The bucket stored under day key `k` ((0, 0) when absent). -/
def dayLookup (m : List (ℕ × ℚ × ℚ)) (k : ℕ) : ℚ × ℚ :=
  match m.find? (fun p => decide (p.1 = k)) with
  | some p => p.2
  | none => (0, 0)

/-- Shallow embedding of `seriesByDateInUI` (public/js/dashboard.js):
bucket by parsed day, then emit the buckets with their keys sorted
ascending (`Object.keys(by).sort()`). -/
def seriesByDateInUI (dayOf : String → Option ℕ) (r : FxTable)
    (uiCur : String) (txs : List Transaction) : List (ℕ × ℚ × ℚ) :=
  let m := txs.foldl (dayStep dayOf r uiCur) []
  let labels := List.insertionSort (· ≤ ·) (m.map Prod.fst)
  labels.map (fun k => (k, dayLookup m k))

/-- C8: a transaction whose date fails to parse leaves the by-date series
untouched but still contributes to the income/expense totals, and the
series is ordered ascending by its day key. -/
theorem claim_C8_series_by_date (dayOf : String → Option ℕ) (r : FxTable)
    (uiCur : String) (txs : List Transaction) (tx : Transaction)
    (h : dayOf tx.date = none) :
    seriesByDateInUI dayOf r uiCur (tx :: txs)
        = seriesByDateInUI dayOf r uiCur txs
    ∧ (computeSummaryInUI r uiCur (tx :: txs)).income
        = (if tx.type = "income" then txValAbs r uiCur tx else 0)
          + (computeSummaryInUI r uiCur txs).income
    ∧ (computeSummaryInUI r uiCur (tx :: txs)).expense
        = (if tx.type = "income" then 0 else txValAbs r uiCur tx)
          + (computeSummaryInUI r uiCur txs).expense
    ∧ List.Sorted (· ≤ ·)
        ((seriesByDateInUI dayOf r uiCur txs).map Prod.fst) := by
  refine ⟨?_, ?_, ?_, ?_⟩
  · simp only [seriesByDateInUI, List.foldl_cons, dayStep, h]
  · simp [computeSummaryInUI_eq, incomeSum]
  · simp [computeSummaryInUI_eq, expenseSum]
  · unfold seriesByDateInUI
    simp only [List.map_map]
    have hmap : (Prod.fst ∘ fun k : ℕ =>
        (k, dayLookup (txs.foldl (dayStep dayOf r uiCur) []) k)) = id := by
      funext k
      rfl
    rw [hmap, List.map_id]
    exact List.sorted_insertionSort (· ≤ ·) _

/-- A day-key assignment for the two scenario dates; anything else is an
invalid date. -/
def demoDayOf : String → Option ℕ := fun s =>
  if s = "2024-01-05" then some 19727
  else if s = "2024-01-06" then some 19728
  else none

/-- An expense transaction whose date does not parse. -/
def badDateTx : Transaction :=
  ⟨some 3, "EUR", "expense", "Misc", "not-a-date", "", ""⟩

/-- Concrete instance of C8: prepending the bad-date transaction leaves
the series unchanged. -/
theorem claim_C8_series_by_date_witness :
    seriesByDateInUI demoDayOf defaultRates "EUR" [badDateTx, foodTx]
      = seriesByDateInUI demoDayOf defaultRates "EUR" [foodTx] :=
  (claim_C8_series_by_date demoDayOf defaultRates "EUR" [foodTx]
    badDateTx rfl).1

/-- A category record; `id` is `none` when the stored object has no id
(the source falls back to the name via `catObj?.id ?? catObj?.name`). -/
structure Category where
  id : Option String
  name : String
deriving DecidableEq

/-- The filter state produced by `getFilters` on the transactions page:
empty string = axis unset for `type`, `category` and `q`; `none` = axis
unset for the date bounds, which are abstracted to integer timestamps. -/
structure Filters where
  type : String
  category : String
  dateFrom : Option ℤ
  dateTo : Option ℤ
  q : String
deriving DecidableEq

/-- Leading-match test of a pattern against a character list. -/
def startsWithList : List Char → List Char → Bool
  | [], _ => true
  | _ :: _, [] => false
  | c :: p, d :: s => c == d && startsWithList p s

/-- `String.prototype.includes` on character lists: the pattern occurs
at some position. -/
def includesList : List Char → List Char → Bool
  | [], p => startsWithList p []
  | s@(_ :: rest), p => startsWithList p s || includesList rest p

/-- `s.includes(p)` on strings. -/
def strIncludes (s p : String) : Bool := includesList s.data p.data

/-- The category axis of `matchesFilters`: the transaction's category
string matches directly (case-insensitive), or it resolves through the
category list by id or name and the resolved identifier matches. -/
def categoryMatches (cats : List Category) (tx : Transaction)
    (want0 : String) : Bool :=
  let wanted := jsToLower want0
  if jsToLower tx.category = wanted then true
  else
    match cats.find? (fun c =>
        decide (c.id = some tx.category ∨ c.name = tx.category)) with
    | some c =>
      decide (jsToLower (match c.id with
        | some i => i
        | none => c.name) = wanted)
    | none => decide (("" : String) = wanted)

/-- `txDate < bound` where `txDate` may be an Invalid Date (`none`):
any comparison against NaN is false. -/
def jsLtB (x : Option ℤ) (y : ℤ) : Bool :=
  match x with
  | some t => decide (t < y)
  | none => false

/-- `txDate > bound` with the same NaN semantics. -/
def jsGtB (x : Option ℤ) (y : ℤ) : Bool :=
  match x with
  | some t => decide (y < t)
  | none => false

/-- Shallow embedding of `matchesFilters` (transactions page).
`parseMs` abstracts `new Date(tx.date)` (`none` = Invalid Date) and
`endOfDay` the end-of-day-inclusive adjustment applied to the upper
bound; each unset axis imposes no constraint, each set axis is an
early-return-false check. -/
def matchesFilters (cats : List Category) (parseMs : String → Option ℤ)
    (endOfDay : ℤ → ℤ) (tx : Transaction) (f : Filters) : Bool :=
  if f.type ≠ "" ∧ tx.type ≠ f.type then false
  else if f.category ≠ "" ∧ categoryMatches cats tx f.category = false then
    false
  else if (match f.dateFrom with
      | some fm => jsLtB (parseMs tx.date) fm
      | none => false) then false
  else if (match f.dateTo with
      | some td => jsGtB (parseMs tx.date) (endOfDay td)
      | none => false) then false
  else if f.q ≠ ""
      ∧ strIncludes
          (jsToLower (tx.description ++ " " ++ tx.note ++ " " ++ tx.category))
          f.q = false then false
  else true

/-- The filter state with every axis unset. -/
def emptyFilters : Filters := ⟨"", "", none, none, ""⟩

/-- `g` constrains a subset of the axes of `f`, with the same value on
every axis both of them set. -/
def LooserThan (g f : Filters) : Prop :=
  (g.type = "" ∨ g.type = f.type)
  ∧ (g.category = "" ∨ g.category = f.category)
  ∧ (g.dateFrom = none ∨ g.dateFrom = f.dateFrom)
  ∧ (g.dateTo = none ∨ g.dateTo = f.dateTo)
  ∧ (g.q = "" ∨ g.q = f.q)

theorem matchesFilters_empty (cats : List Category)
    (parseMs : String → Option ℤ) (endOfDay : ℤ → ℤ) (tx : Transaction) :
    matchesFilters cats parseMs endOfDay tx emptyFilters = true := by
  simp [matchesFilters, emptyFilters]

theorem matchesFilters_eq_true_iff (cats : List Category)
    (parseMs : String → Option ℤ) (endOfDay : ℤ → ℤ) (tx : Transaction)
    (f : Filters) :
    matchesFilters cats parseMs endOfDay tx f = true ↔
      ¬(f.type ≠ "" ∧ tx.type ≠ f.type)
      ∧ ¬(f.category ≠ "" ∧ categoryMatches cats tx f.category = false)
      ∧ ¬((match f.dateFrom with
          | some fm => jsLtB (parseMs tx.date) fm
          | none => false) = true)
      ∧ ¬((match f.dateTo with
          | some td => jsGtB (parseMs tx.date) (endOfDay td)
          | none => false) = true)
      ∧ ¬(f.q ≠ ""
          ∧ strIncludes
              (jsToLower
                (tx.description ++ " " ++ tx.note ++ " " ++ tx.category))
              f.q = false) := by
  unfold matchesFilters
  split_ifs <;> simp [*]

theorem matchesFilters_mono (cats : List Category)
    (parseMs : String → Option ℤ) (endOfDay : ℤ → ℤ) (tx : Transaction)
    {f g : Filters} (hlg : LooserThan g f)
    (h : matchesFilters cats parseMs endOfDay tx f = true) :
    matchesFilters cats parseMs endOfDay tx g = true := by
  obtain ⟨a1, a2, a3, a4, a5⟩ := hlg
  rw [matchesFilters_eq_true_iff] at h ⊢
  obtain ⟨m1, m2, m3, m4, m5⟩ := h
  refine ⟨?_, ?_, ?_, ?_, ?_⟩
  · rcases a1 with ha | ha
    · simp [ha]
    · rw [ha]; exact m1
  · rcases a2 with ha | ha
    · simp [ha]
    · rw [ha]; exact m2
  · rcases a3 with ha | ha
    · simp [ha]
    · rw [ha]; exact m3
  · rcases a4 with ha | ha
    · simp [ha]
    · rw [ha]; exact m4
  · rcases a5 with ha | ha
    · simp [ha]
    · rw [ha]; exact m5

/-- C9: the all-unset filter accepts every transaction, so filtering
returns the list unchanged; and a filter that constrains more axes with
the same shared values accepts a subset of what the looser one does. -/
theorem claim_C9_filter_conjunction (cats : List Category)
    (parseMs : String → Option ℤ) (endOfDay : ℤ → ℤ)
    (txs : List Transaction) (f g : Filters) (hlg : LooserThan g f) :
    txs.filter (fun tx => matchesFilters cats parseMs endOfDay tx
        emptyFilters) = txs
    ∧ ∀ tx ∈ txs.filter
          (fun tx => matchesFilters cats parseMs endOfDay tx f),
        tx ∈ txs.filter
          (fun tx => matchesFilters cats parseMs endOfDay tx g) := by
  constructor
  · exact List.filter_eq_self.mpr
      (fun tx _ => matchesFilters_empty cats parseMs endOfDay tx)
  · intro tx htx
    rw [List.mem_filter] at htx ⊢
    exact ⟨htx.1, matchesFilters_mono cats parseMs endOfDay tx hlg htx.2⟩

/-- A filter on the type axis only. -/
def incomeOnlyFilters : Filters := ⟨"income", "", none, none, ""⟩

/-- Concrete instance of C9 with the empty filter as the looser one. -/
theorem claim_C9_filter_conjunction_witness :
    [foodTx, salaryTx].filter
        (fun tx => matchesFilters [] (fun _ => none) id tx emptyFilters)
      = [foodTx, salaryTx]
    ∧ ∀ tx ∈ [foodTx, salaryTx].filter
          (fun tx => matchesFilters [] (fun _ => none) id tx
            incomeOnlyFilters),
        tx ∈ [foodTx, salaryTx].filter
          (fun tx => matchesFilters [] (fun _ => none) id tx emptyFilters) :=
  claim_C9_filter_conjunction [] (fun _ => none) id [foodTx, salaryTx]
    incomeOnlyFilters emptyFilters
    ⟨Or.inl rfl, Or.inl rfl, Or.inl rfl, Or.inl rfl, Or.inl rfl⟩

end ExpenseTracker
